import Mathlib

/-!
Verification of the Cutelyst request-dispatcher (`dispatcher.cpp`).

The development shallowly embeds the dispatcher's data model and algorithms:
`QString` index arithmetic is modelled on `List Char` with `Int` positions
(mirroring Qt's `mid` / `indexOf` / `lastIndexOf` semantics), `QHash` and the
namespace containers are modelled as association lists, and the dispatch-type
objects are modelled abstractly (a matcher is a function from a candidate path
to an optionally matched action, a registration policy is a predicate on
actions).  `exit(1)` is modelled by returning `none` from setup.

Each embedded function is translated line-by-line from `dispatcher.cpp`;
definitions whose source is not part of the repository snapshot (the
`DispatchTypePath` matcher, `Action::reverse`) are marked
`Modelled from the spec:` in their doc comments.
-/

set_option autoImplicit false

namespace Cutelyst

/-! ## Qt string primitives, modelled on `List Char` -/

/-- Model of `QString::mid(pos, n)` for `0 ≤ pos`: take `n` characters starting
at position `pos`, clamped to the end of the string. -/
def qmid (s : List Char) (pos n : Int) : List Char :=
  (s.drop pos.toNat).take n.toNat

/-- Helper for `qlastIndexOf`: the largest index `i ≤ fr` (scanning the whole
list) whose character equals `c`, with `best` the best index found so far. -/
def lastScan : List Char → Char → Int → Int → Int → Int
  | [], _, _, _, best => best
  | x :: xs, c, fr, i, best =>
      lastScan xs c fr (i + 1) (if x = c ∧ i ≤ fr then i else best)

/-- Model of `QString::lastIndexOf(QChar ch, int from)`: backward search from
index `f` (negative `f` counts from the end, Qt semantics); `-1` if absent. -/
def qlastIndexOf (s : List Char) (c : Char) (f : Int) : Int :=
  let fr : Int := if f < 0 then f + s.length else f
  lastScan s c fr 0 (-1)

/-- Helper for `qindexOf`: the smallest index `i ≥ fr` whose character is `c`. -/
def firstScan : List Char → Char → Int → Int → Int
  | [], _, _, _ => -1
  | x :: xs, c, fr, i => if x = c ∧ fr ≤ i then i else firstScan xs c fr (i + 1)

/-- Model of `QString::indexOf(QChar ch, int from)`: forward search from index
`f` (negative `f` adjusted by the length and clamped to `0`, Qt semantics);
returns `-1` if no occurrence at an index `≥ f` exists. -/
def qindexOf (s : List Char) (c : Char) (f : Int) : Int :=
  let fr : Int := if f < 0 then max (f + s.length) 0 else f
  firstScan s c fr 0

/-- `QString::startsWith(QLatin1Char('/'))`, decided on the character list
(the byte-based core `String.startsWith` does not reduce well). -/
def startsWithSlash (s : String) : Bool :=
  match s.data with
  | [] => false
  | c :: _ => c = '/'

/-- `QString::remove(0, 1)` (drop the first character). -/
def dropFirstChar (s : String) : String :=
  String.mk s.data.tail

/-- Accumulator-based worker for `splitSlash`. -/
def splitSlashAux : List Char → List Char → List String
  | [], acc => [String.mk acc.reverse]
  | c :: rest, acc =>
      if c = '/' then String.mk acc.reverse :: splitSlashAux rest []
      else splitSlashAux rest (c :: acc)

/-- `QString::split(QLatin1Char('/'))` with Qt's default `KeepEmptyParts`:
`"a/b" ↦ ["a","b"]`, `"" ↦ [""]`, `"/" ↦ ["",""]`. -/
def splitSlash (s : List Char) : List String :=
  splitSlashAux s []

/-- Hexadecimal digit value, for percent decoding. -/
def hexVal (c : Char) : Option Nat :=
  if '0' ≤ c ∧ c ≤ '9' then some (c.toNat - '0'.toNat)
  else if 'a' ≤ c ∧ c ≤ 'f' then some (c.toNat - 'a'.toNat + 10)
  else if 'A' ≤ c ∧ c ≤ 'F' then some (c.toNat - 'A'.toNat + 10)
  else none

/-- Model of `QUrl::fromPercentEncoding`: replace each valid `%XY` escape by
the character with code `16*X + Y`; invalid escapes are left untouched. -/
def percentDecode : List Char → List Char
  | [] => []
  | '%' :: a :: b :: rest =>
      match hexVal a, hexVal b with
      | some x, some y => Char.ofNat (16 * x + y) :: percentDecode rest
      | _, _ => '%' :: percentDecode (a :: b :: rest)
  | c :: rest => c :: percentDecode rest

/-! ## Data model -/

/-- An action: a single invocable handler.  `ns` is the slash-delimited
namespace (empty for root), `name` the method name and `attributes` the set of
string flags (e.g. `"Private"`). -/
structure Action where
  ns : String
  name : String
  attributes : List String
  deriving DecidableEq, Repr

/-- Modelled from the spec: `Action::reverse()` (implemented in `action.cpp`,
which is not part of this snapshot) is the derived key `namespace + "/" + name`
(§3 of the spec).  It coincides with the key built by
`Dispatcher::setupActions` when inserting into the registry. -/
def Action.reverse (a : Action) : String :=
  a.ns ++ "/" ++ a.name

/-- A controller: a named object declaring a list of actions. -/
structure Controller where
  objectName : String
  actions : List Action
  deriving DecidableEq, Repr

/-- A dispatch-type object as far as setup-time state is concerned: an
identifier (used to look up its registration policy) together with the sticky
`inUse()` flag, which becomes true once the type claims an action. -/
structure DT where
  id : Nat
  used : Bool
  deriving DecidableEq, Repr

/-- The dispatcher's private state (`DispatcherPrivate`): the reverse-key
registry `actionHash`, the per-namespace containers `containerHash`, the
cached snapshot `rootActions`, the controller registry `constrollerHash`
(name kept from the source) and the dispatch-type list. -/
structure DState where
  actionHash : List (String × Action)
  containerHash : List (String × List Action)
  rootActions : List Action
  constrollerHash : List (String × Controller)
  dispatchers : List DT
  deriving DecidableEq, Repr

/-- `QHash::value(key)` for an association list: first binding wins, `none`
when the key is absent. -/
def alookup {α : Type} : List (String × α) → String → Option α
  | [], _ => none
  | (k, v) :: rest, key => if k = key then some v else alookup rest key

/-- `QHash::insert(key, value)`: replaces the binding when the key exists,
appends it otherwise. -/
def qhashInsert {α : Type} : List (String × α) → String → α → List (String × α)
  | [], key, v => [(key, v)]
  | (k, w) :: rest, key, v =>
      if k = key then (key, v) :: rest else (k, w) :: qhashInsert rest key v

/-- `containerHash[ns] << action`: append `a` to the list stored at key `ns`,
creating the entry when absent (QHash `operator[]` on a default-constructed
list). -/
def containerAdd : List (String × List Action) → String → Action → List (String × List Action)
  | [], key, a => [(key, [a])]
  | (k, v) :: rest, key, a =>
      if k = key then (k, v ++ [a]) :: rest else (k, v) :: containerAdd rest key a

/-- `containerHash.value(ns)`: the container list at `ns`, empty when absent. -/
def containerGet (ch : List (String × List Action)) (key : String) : List Action :=
  (alookup ch key).getD []

/-! ## Namespace cleaning and registry lookup -/

/-- Loop body of `DispatcherPrivate::cleanNamespace`.  The C++ loop walks an
index `i` over the string, removing a slash whenever the previous examined
character was a slash; after a removal `++i` skips the character that shifted
into position `i` (it is emitted unexamined and `lastWasSlash` is left
unchanged), which this recursion reproduces exactly. -/
def cleanLoop : List Char → Bool → List Char
  | [], _ => []
  | c :: rest, lastWasSlash =>
      if c = '/' then
        if lastWasSlash then
          match rest with
          | [] => []
          | d :: rest2 => d :: cleanLoop rest2 lastWasSlash
        else c :: cleanLoop rest true
      else c :: cleanLoop rest false

/-- `DispatcherPrivate::cleanNamespace`: drop an initial slash and collapse
runs of slashes (with the index-skipping behaviour of the source loop). -/
def cleanNamespace (ns : String) : String :=
  String.mk (cleanLoop ns.data true)

/-- `Dispatcher::getAction(name, nameSpace)`: `null` for an empty name,
otherwise an exact registry hit on `cleanNamespace(nameSpace) + "/" + name`. -/
def getAction (actionHash : List (String × Action)) (name nameSpace : String) : Option Action :=
  if name = "" then none
  else alookup actionHash (cleanNamespace nameSpace ++ "/" ++ name)

/-- `Dispatcher::getActionByPath`: exact registry hit on the path with a
single leading slash stripped. -/
def getActionByPath (actionHash : List (String × Action)) (path : String) : Option Action :=
  alookup actionHash (if startsWithSlash path then dropFirstChar path else path)

/-- The `while (pos > 0)` loop of `DispatcherPrivate::getContainers`: append
the container of each prefix of `ns` obtained by truncating at slash
boundaries, walking from the full namespace toward the root.  `fuel` bounds
the iteration count; `ns.length + 1` always suffices because `pos` strictly
decreases. -/
def getContainersLoop (ch : List (String × List Action)) (ns : List Char) :
    Nat → Int → List Action
  | 0, _ => []
  | fuel + 1, pos =>
      if pos > 0 then
        containerGet ch (String.mk (qmid ns 0 pos)) ++
          getContainersLoop ch ns fuel (qlastIndexOf ns '/' (pos - 1))
      else []

/-- `DispatcherPrivate::getContainers`: the flattened, most-specific-first
list of candidate actions for a (cleaned) namespace, always ending with the
cached `rootActions` snapshot. -/
def getContainers (s : DState) (ns : String) : List Action :=
  (if ns ≠ "/" then
      getContainersLoop s.containerHash ns.data (ns.length + 1) ns.length
    else []) ++ s.rootActions

/-- The `Q_FOREACH` filter of `Dispatcher::getActions`: prepend every action
whose name matches, in container order. -/
def prependMatches : List Action → String → List Action → List Action
  | [], _, acc => acc
  | a :: rest, nm, acc =>
      prependMatches rest nm (if a.name = nm then a :: acc else acc)

/-- `Dispatcher::getActions(name, nameSpace)`: empty for an empty name,
otherwise the name-matches collected (by prepending) from the namespace
hierarchy walk. -/
def getActions (s : DState) (nm nameSpace : String) : List Action :=
  if nm = "" then []
  else prependMatches (getContainers s (cleanNamespace nameSpace)) nm []

/-! ## Forward-by-name resolution -/

/-- `DispatcherPrivate::actionRel2Abs`: prefix a relative name with the
namespace of the currently executing action (`ctx->stack().last()`), then
strip a single leading slash. -/
def actionRel2Abs (currentNs path : String) : String :=
  let ret := if ¬ startsWithSlash path then currentNs ++ "/" ++ path else path
  if startsWithSlash ret then dropFirstChar ret else ret

/-- The `do … while (pos != -1)` loop of `DispatcherPrivate::invokeAsPath`.
One iteration: when `pos = -1` try the whole remaining string as a root-level
name; otherwise split at `pos`, try `getAction(name, prefix)`, shorten `path`
to the prefix; then advance with `pos = path.indexOf('/', pos - 1)` (the
source uses the *forward*-searching `indexOf` here) and continue while
`pos != -1`.  `fuel` bounds the iterations; `path.length + 1` suffices since
`path` shrinks (or the loop exits) every iteration. -/
def invokeLoop (actionHash : List (String × Action)) :
    Nat → List Char → Int → Int → Option Action
  | 0, _, _, _ => none
  | fuel + 1, path, pos, lastPos =>
      if pos = -1 then
        match getAction actionHash (String.mk path) "" with
        | some r => some r
        | none =>
            let pos2 := qindexOf path '/' (pos - 1)
            if pos2 = -1 then none
            else invokeLoop actionHash fuel path pos2 pos
      else
        let nm := String.mk (qmid path (pos + 1) lastPos)
        let path2 := qmid path 0 pos
        match getAction actionHash nm (String.mk path2) with
        | some r => some r
        | none =>
            let pos2 := qindexOf path2 '/' (pos - 1)
            if pos2 = -1 then none
            else invokeLoop actionHash fuel path2 pos2 pos

/-- `DispatcherPrivate::invokeAsPath`: make the operation name absolute
against the executing action's namespace and run the split loop. -/
def invokeAsPath (actionHash : List (String × Action)) (currentNs relativePath : String) :
    Option Action :=
  let path := actionRel2Abs currentNs relativePath
  invokeLoop actionHash (path.length + 1) path.data
    (qlastIndexOf path.data '/' (-1)) path.length

/-- `DispatcherPrivate::command2Action`: an exact registry hit on the literal
command string, falling back to `invokeAsPath`. -/
def command2Action (actionHash : List (String × Action)) (currentNs command : String) :
    Option Action :=
  match alookup actionHash command with
  | some r => some r
  | none => invokeAsPath actionHash currentNs command

/-! ## Path resolution (`prepareAction`)

A dispatch type's `match` is modelled abstractly as a function from the
candidate path to an optionally matched action; on `ExactMatch` the context
receives that action together with the argument accumulator (which is what
`DispatchTypePath::match` stores into the request). -/

/-- Abstract `DispatchType::match`: `some a` is `ExactMatch` resolving to `a`,
`none` is `NoMatch`. -/
def Matcher : Type := String → Option Action

/-- The `Q_FOREACH (DispatchType *type, d->dispatchers)` loop: the first
dispatch type returning `ExactMatch` wins. -/
def firstMatch : List Matcher → String → Option Action
  | [], _ => none
  | m :: ms, s =>
      match m s with
      | some a => some a
      | none => firstMatch ms s

/-- The `Q_FOREVER` loop of `Dispatcher::prepareAction`: try the prefix
`path.mid(0, pos)` against every dispatch type; on no match stop at the root,
otherwise move `pos` to the previous slash (clamping `-1` to `0`) and prepend
the percent-decoded last path part to the argument accumulator.  `fuel` bounds
the iterations; `path.length + 2` suffices since `pos` strictly decreases. -/
def prepLoop (ms : List Matcher) (path : List Char) :
    Nat → Int → List String → List String → Option (Action × List String)
  | 0, _, _, _ => none
  | fuel + 1, pos, args, pathParts =>
      match firstMatch ms (String.mk (qmid path 0 pos)) with
      | some a => some (a, args)
      | none =>
          if pos ≤ 0 then none
          else
            let pos2 := qlastIndexOf path '/' (pos - 1)
            let pos3 := if pos2 = -1 then 0 else pos2
            prepLoop ms path fuel pos3
              (String.mk (percentDecode (pathParts.getLastD "").data) :: args)
              pathParts.dropLast

/-- `Dispatcher::prepareAction`: longest-prefix-first backtracking over the
request path.  Returns the resolved action and final argument list, or `none`
when no dispatch type matched any prefix (no action is set).  The request
path carries no leading slash (see the `"foo/bar"` comment in the source). -/
def prepareAction (ms : List Matcher) (path : String) : Option (Action × List String) :=
  prepLoop ms path.data (path.length + 2) path.length [] ("" :: splitSlash path.data)

/-- Modelled from the spec: registration of a literal-path action in the
literal matcher's index (`DispatchTypePath`, whose source is not in this
snapshot): the path is indexed with a leading slash stripped, an empty path
denoting the root entry `"/"` (§4.2: "exact string-to-action mapping"). -/
def registerPath (index : List (String × Action)) (path : String) (a : Action) :
    List (String × Action) :=
  let p := if startsWithSlash path then dropFirstChar path else path
  qhashInsert index (if p = "" then "/" else p) a

/-- Modelled from the spec: the literal path matcher's `match`
(`DispatchTypePath`, whose source is not in this snapshot): an exact lookup of
the candidate prefix in its index, an empty candidate being treated as the
root path `"/"` (§4.4's edge case: "an empty request path must be treated as
the root path for this search"). -/
def literalMatch (index : List (String × Action)) : Matcher :=
  fun candidate => alookup index (if candidate = "" then "/" else candidate)

/-! ## Dispatch and URI generation -/

/-- The request context as `Dispatcher::dispatch` sees it: the resolved
action (if path resolution set one), the request path, and the list of error
messages reported so far (`Context::error` is modelled, per §6 of the spec, as
appending one message). -/
structure Ctx where
  action : Option Action
  reqPath : String
  errors : List String
  deriving DecidableEq, Repr

/-- `Dispatcher::dispatch(ctx)`: forward to the resolved action's
`_DISPATCH` private action, or report a not-found error.  The forwarding
collaborator (`Context::execute` and the action chain) is abstracted as
`fwd`. -/
def dispatch (fwd : Ctx → String → Bool) (ctx : Ctx) : Bool × Ctx :=
  match ctx.action with
  | some a => (fwd ctx ("/" ++ a.ns ++ "/_DISPATCH"), ctx)
  | none =>
      (false,
        { ctx with
          errors := ctx.errors ++
            [if ctx.reqPath = "" then "No default action defined"
             else "Unknown resource \"" ++ ctx.reqPath ++ "\"."] })

/-- Abstract `DispatchType::uriForAction`: `none` is a null `QString`,
`some ""` a non-null empty one. -/
def UriGen : Type := Action → List String → Option String

/-- `Dispatcher::uriForAction(action, captures)`: first non-null result over
the dispatch types in order, an empty result replaced by `"/"`; null when no
type owns the action. -/
def uriForAction : List UriGen → Action → List String → Option String
  | [], _, _ => none
  | d :: ds, a, captures =>
      match d a captures with
      | some uri => some (if uri = "" then "/" else uri)
      | none => uriForAction ds a captures

/-! ## Setup (`setupActions`)

Registration policies of the dispatch types are modelled as a predicate
`accepts` on the type's identifier and the action; a `DT`'s sticky `used`
flag is updated on acceptance.  `exit(1)` is modelled by `none`. -/

/-- The inner `Q_FOREACH (DispatchType *dispatch, d->dispatchers)` loop of
`setupActions`: offer the action to every dispatch type, updating each
`inUse` flag, and report whether any accepted. -/
def offerAll (accepts : Nat → Action → Bool) (a : Action) : List DT → List DT × Bool
  | [] => ([], false)
  | d :: ds =>
      (⟨d.id, d.used || accepts d.id a⟩ :: (offerAll accepts a ds).1,
        accepts d.id a || (offerAll accepts a ds).2)

/-- The five reserved lifecycle names of the `else if` chain in
`setupActions`. -/
def reservedNames : List String :=
  ["_DISPATCH", "_BEGIN", "_AUTO", "_ACTION", "_END"]

/-- The outcome of processing one action in `setupActions`: inserted into the
registry, logged as unroutable (`qCDebug`), or silently skipped (reserved
name, diagnostics disabled). -/
inductive Outcome where
  | registered
  | unroutable
  | skipped
  deriving DecidableEq, Repr

/-- The `registered` flag of one `setupActions` iteration, paired with the
(possibly mutated) dispatch-type list: the duplicate check on `reverse()`,
then either the offer to every dispatch type (non-private actions) or
unconditional registration (private actions). -/
def regResult (accepts : Nat → Action → Bool) (s : DState) (a : Action) :
    List DT × Bool :=
  if alookup s.actionHash a.reverse = none then
    if ¬ a.attributes.contains "Private" then
      offerAll accepts a s.dispatchers
    else (s.dispatchers, true)
  else (s.dispatchers, false)

/-- One action's processing in `Dispatcher::setupActions`: the duplicate
check and registration offer (`regResult`), the insertion into
`actionHash`/`containerHash` (the insert key `ns + "/" + name` is written
`a.reverse`, which is definitionally that string), and the `else if` chain
whose last branch is the fatal duplicate diagnostic (`qCCritical` +
`exit(1)`, modelled as `none`). -/
def setupAction (showInternal : Bool) (accepts : Nat → Action → Bool)
    (s : DState) (a : Action) : Option (DState × Outcome) :=
  if (regResult accepts s a).2 then
    some ({ s with
      actionHash := qhashInsert s.actionHash a.reverse a,
      containerHash := containerAdd s.containerHash a.ns a,
      dispatchers := (regResult accepts s a).1 }, .registered)
  else if ¬ reservedNames.contains a.name then
    some ({ s with dispatchers := (regResult accepts s a).1 }, .unroutable)
  else if showInternal then
    none
  else
    some ({ s with dispatchers := (regResult accepts s a).1 }, .skipped)

/-- The per-controller action loop of `setupActions`, threading the
`instanceUsed` flag. -/
def setupActionList (showInternal : Bool) (accepts : Nat → Action → Bool) :
    DState → Bool → List Action → Option (DState × Bool)
  | s, used, [] => some (s, used)
  | s, used, a :: rest =>
      match setupAction showInternal accepts s a with
      | none => none
      | some (s2, o) =>
          setupActionList showInternal accepts s2
            (if o = Outcome.registered then true else used) rest

/-- The `if (instanceUsed)` recording of a controller in `constrollerHash`. -/
def recordCtrl (s : DState) (c : Controller) (used : Bool) : DState :=
  if used then
    { s with constrollerHash := qhashInsert s.constrollerHash c.objectName c }
  else s

/-- The controller loop of `setupActions`: process each controller's actions
and, when any of them got registered, record the controller in
`constrollerHash`. -/
def setupControllers (showInternal : Bool) (accepts : Nat → Action → Bool) :
    DState → List Controller → Option DState
  | s, [] => some s
  | s, c :: cs =>
      match setupActionList showInternal accepts s false c.actions with
      | none => none
      | some (s2, used) =>
          setupControllers showInternal accepts (recordCtrl s2 c used) cs

/-- `Dispatcher::setupActions`: register every controller's actions, snapshot
the root namespace's container into `rootActions` (before the controllers'
`setupFinished` notification, which is controller-internal and does not touch
the dispatcher state), and drop every dispatch type whose `inUse()` is
false.  `none` models the fatal `exit(1)` path. -/
def setupActions (showInternal : Bool) (accepts : Nat → Action → Bool)
    (s : DState) (cs : List Controller) : Option DState :=
  match setupControllers showInternal accepts s cs with
  | none => none
  | some s1 =>
      let s2 := { s1 with rootActions := containerGet s1.containerHash "" }
      some { s2 with dispatchers := s2.dispatchers.filter (·.used) }

/-! ## Concrete fixtures -/

/-- Root-level action `sibling` (registry key `"/sibling"`, since the insert
key is `ns + "/" + name` with `ns = ""`). -/
def sibRoot : Action := ⟨"", "sibling", ["Private"]⟩

/-- Action `sibling` in namespace `a`. -/
def sibA : Action := ⟨"a", "sibling", []⟩

/-- Action `sibling` in namespace `a/b`. -/
def sibAB : Action := ⟨"a/b", "sibling", []⟩

/-- **C1.** The spec requires forward-by-name resolution of a relative
operation name to backtrack split-by-split toward the root (`a/b/sibling`,
then `a/sibling`, then root `sibling`).  The code is a slip: the loop of
`DispatcherPrivate::invokeAsPath` advances with the *forward*-searching
`QString::indexOf('/', pos - 1)` on the already-shortened prefix (where every
remaining slash lies before `pos - 1`), so `pos` becomes `-1` and the
`do … while (pos != -1)` exits after the first split.  Forwarding `"sibling"`
from namespace `a/b` therefore fails (`none`) when only the root `sibling`
(or only `a/sibling`) is registered, although `getAction` finds both, and
succeeds only when `a/b/sibling` itself exists. -/
theorem invokeAsPath_no_backtrack_bug :
    command2Action [("/sibling", sibRoot)] "a/b" "sibling" = none
  ∧ getAction [("/sibling", sibRoot)] "sibling" "" = some sibRoot
  ∧ command2Action [("a/sibling", sibA)] "a/b" "sibling" = none
  ∧ getAction [("a/sibling", sibA)] "sibling" "a" = some sibA
  ∧ command2Action [("a/b/sibling", sibAB)] "a/b" "sibling" = some sibAB := by
  decide

/-- Non-private, non-reserved action `a/show`, declared twice by the same
controller. -/
def dupShow : Action := ⟨"a", "show", []⟩

/-- A controller declaring `a/show` twice. -/
def dupCtrl : Controller := ⟨"C", [dupShow, dupShow]⟩

/-- Initial dispatcher state with one (accept-everything) dispatch type. -/
def dupState0 : DState := ⟨[], [], [], [], [⟨0, false⟩]⟩

/-- **C2, counterexample.** With diagnostics enabled (`showInternalActions`),
registering two actions with the identical namespace+name `a/show` does *not*
take the fatal duplicate-registration path: `setupActions` completes
(`isSome`, i.e. no `exit(1)`), because the `else if` chain reaches the fatal
branch only for the five reserved lifecycle names; the ordinary-named
duplicate falls into the `qCDebug` "not registered" branch and is simply not
inserted (the registry holds a single entry). -/
theorem setupActions_duplicate_not_fatal_cex :
    (setupActions true (fun _ _ => true) dupState0 [dupCtrl]).isSome = true
  ∧ (setupActions true (fun _ _ => true) dupState0 [dupCtrl]).map (·.actionHash)
      = some [("a/show", dupShow)] := by
  decide

/-- When the action's reverse key is already registered, `regResult` leaves
the dispatch types untouched and reports no registration. -/
theorem regResult_key_present (accepts : Nat → Action → Bool) (s : DState) (a : Action)
    (h : ¬ alookup s.actionHash a.reverse = none) :
    regResult accepts s a = (s.dispatchers, false) := by
  simp [regResult, h]

/-- A `setupAction` step whose `registered` flag is false and whose
dispatch-type list is unchanged reduces to the `else if` chain on the
unchanged state. -/
theorem setupAction_not_registered (showInternal : Bool) (accepts : Nat → Action → Bool)
    (s : DState) (a : Action)
    (h : regResult accepts s a = (s.dispatchers, false)) :
    setupAction showInternal accepts s a =
      (if ¬ reservedNames.contains a.name then some (s, Outcome.unroutable)
       else if showInternal then none
       else some (s, Outcome.skipped)) := by
  unfold setupAction
  rw [h]
  simp only [Prod.fst, Prod.snd]
  cases s
  simp

/-- **C2, amended.** During `setupActions`, an action whose reverse key is
already in the registry is never re-inserted; with diagnostics enabled it is
fatal (`exit(1)`, modelled `none`) *only when its name is one of the five
reserved lifecycle names*; a duplicate with any other name takes the
`qCDebug` unroutable branch and leaves the state unchanged; with diagnostics
disabled a duplicate is silently skipped, also leaving the state unchanged. -/
theorem duplicate_registration_behavior (showInternal : Bool)
    (accepts : Nat → Action → Bool) (s : DState) (a : Action)
    (hdup : (alookup s.actionHash a.reverse).isSome = true) :
    setupAction showInternal accepts s a =
      if reservedNames.contains a.name then
        (if showInternal then none else some (s, Outcome.skipped))
      else some (s, Outcome.unroutable) := by
  obtain ⟨x, hx⟩ := Option.isSome_iff_exists.mp hdup
  rw [setupAction_not_registered showInternal accepts s a
    (regResult_key_present accepts s a (by rw [hx]; simp))]
  by_cases hn : reservedNames.contains a.name
  · simp [hn]
  · simp [hn]

/-- Reserved-name duplicate fixture: `a/_DISPATCH` already registered. -/
def dupWAct : Action := ⟨"a", "_DISPATCH", ["Private"]⟩

/-- State already holding the key `a/_DISPATCH`. -/
def dupWState : DState := ⟨[("a/_DISPATCH", dupWAct)], [("a", [dupWAct])], [], [], []⟩

/-- Witness for `duplicate_registration_behavior`: a reserved-name duplicate
with diagnostics enabled takes the fatal path (`none`). -/
theorem duplicate_registration_behavior_witness :
    (alookup dupWState.actionHash dupWAct.reverse).isSome = true
  ∧ setupAction true (fun _ _ => true) dupWState dupWAct = none := by
  refine ⟨by decide, ?_⟩
  rw [duplicate_registration_behavior true (fun _ _ => true) dupWState dupWAct (by decide)]
  rfl

/-- Root-level action `show`. -/
def showRoot : Action := ⟨"", "show", []⟩

/-- Action `show` in namespace `a`. -/
def showA : Action := ⟨"a", "show", []⟩

/-- Action `show` in namespace `a/b`. -/
def showAB : Action := ⟨"a/b", "show", []⟩

/-- A dispatcher state with a `show` action in each of `a/b`, `a` and the
root (the `rootActions` snapshot). -/
def orderState : DState :=
  ⟨[], [("a/b", [showAB]), ("a", [showA])], [showRoot], [], []⟩

/-- **C3, counterexample.** `getActions("show", "a/b")` does *not* return the
deepest-namespace match first: because the `Q_FOREACH` loop *prepends* each
match while `getContainers` walks deepest-first, the result is the root
`show` first and the `a/b` `show` last — the reverse of the claimed order. -/
theorem getActions_order_cex :
    getActions orderState "show" "a/b" = [showRoot, showA, showAB]
  ∧ getActions orderState "show" "a/b" ≠ [showAB, showA, showRoot] := by
  decide

/-- **C10.** `getAction` returns `null` and `getActions` returns the empty
list whenever the requested name is empty, for every registry state and
namespace argument: both guard on `name.isEmpty()` before any lookup. -/
theorem empty_name_lookup_null :
    (∀ (actionHash : List (String × Action)) (nameSpace : String),
        getAction actionHash "" nameSpace = none)
  ∧ (∀ (s : DState) (nameSpace : String), getActions s "" nameSpace = []) := by
  exact ⟨fun h ns => by simp [getAction], fun s ns => by simp [getActions]⟩

/-- **C6.** On a context with no resolved action, `Dispatcher::dispatch`
returns `false` and appends exactly one error message to the context: `"No
default action defined"` when the request path is empty, otherwise
`"Unknown resource \"<path>\"."`; it is a total function of the context (no
abort), and the resolved-action slot is left untouched. -/
theorem dispatch_no_action_error (fwd : Ctx → String → Bool) (ctx : Ctx)
    (h : ctx.action = none) :
    (dispatch fwd ctx).1 = false
  ∧ (dispatch fwd ctx).2.errors = ctx.errors ++
      [if ctx.reqPath = "" then "No default action defined"
       else "Unknown resource \"" ++ ctx.reqPath ++ "\"."] := by
  simp [dispatch, h]

/-- Witness for `dispatch_no_action_error` at a concrete unresolved context
with path `"miss"`. -/
theorem dispatch_no_action_error_witness :
    ((⟨none, "miss", []⟩ : Ctx).action = none)
  ∧ (dispatch (fun _ _ => true) ⟨none, "miss", []⟩).1 = false
  ∧ (dispatch (fun _ _ => true) ⟨none, "miss", []⟩).2.errors
      = ["Unknown resource \"miss\"."] := by
  have h := dispatch_no_action_error (fun _ _ => true) ⟨none, "miss", []⟩ rfl
  exact ⟨rfl, h.1, by rw [h.2]; rfl⟩

/-- **C7.** `Dispatcher::uriForAction` offers the action and captures to the
dispatch types in list order: with no dispatch types the result is null; the
head's non-null result is returned at once, an empty string being replaced by
the canonical root path `"/"`; a null head result defers to the remaining
types unchanged. -/
theorem uriForAction_first_non_null :
    (∀ (a : Action) (captures : List String), uriForAction [] a captures = none)
  ∧ (∀ (d : UriGen) (ds : List UriGen) (a : Action) (captures : List String) (u : String),
        d a captures = some u →
        uriForAction (d :: ds) a captures = some (if u = "" then "/" else u))
  ∧ (∀ (d : UriGen) (ds : List UriGen) (a : Action) (captures : List String),
        d a captures = none →
        uriForAction (d :: ds) a captures = uriForAction ds a captures) := by
  refine ⟨fun a c => rfl, fun d ds a c u h => ?_, fun d ds a c h => ?_⟩
  · simp [uriForAction, h]
  · simp [uriForAction, h]

/-- A dispatch type owning no action (always-null uri). -/
def uriNullGen : UriGen := fun _ _ => none

/-- A dispatch type producing the empty (non-null) uri. -/
def uriEmptyGen : UriGen := fun _ _ => some ""

/-- Witness for `uriForAction_first_non_null`: the null generator defers to
the next one, whose empty result becomes the canonical root `"/"`. -/
theorem uriForAction_first_non_null_witness :
    uriNullGen showRoot [] = none
  ∧ uriEmptyGen showRoot [] = some ""
  ∧ uriForAction [uriNullGen, uriEmptyGen] showRoot [] = some "/" := by
  refine ⟨rfl, rfl, ?_⟩
  rw [uriForAction_first_non_null.2.2 uriNullGen [uriEmptyGen] showRoot [] rfl,
    uriForAction_first_non_null.2.1 uriEmptyGen [] showRoot [] "" rfl]
  rfl

/-! ## Path-resolution lemmas (C4, C5) -/

/-- The whole string is the prefix tried first: `mid(0, size)` is the string
itself. -/
theorem string_length_data (s : String) : s.length = s.data.length := by
  cases s
  rfl

/-- The whole string is the prefix tried first: `mid(0, size)` is the string
itself. -/
theorem qmid_full (s : String) : String.mk (qmid s.data 0 (s.length : Int)) = s := by
  show String.mk ((s.data.drop (0 : Int).toNat).take (s.length : Int).toNat) = s
  rw [string_length_data, Int.toNat_zero, Int.toNat_natCast, List.drop_zero, List.take_length]

/-- A first-iteration `ExactMatch` of `prepLoop` returns that action with the
current argument accumulator. -/
theorem prepLoop_match (ms : List Matcher) (path : List Char) (fuel : Nat) (pos : Int)
    (args pathParts : List String) (a : Action)
    (h : firstMatch ms (String.mk (qmid path 0 pos)) = some a) :
    prepLoop ms path (fuel + 1) pos args pathParts = some (a, args) := by
  simp [prepLoop, h]

/-- If every matcher rejects every string, `firstMatch` rejects. -/
theorem firstMatch_eq_none (ms : List Matcher) (hms : ∀ m ∈ ms, ∀ s, m s = none)
    (s : String) : firstMatch ms s = none := by
  induction ms with
  | nil => rfl
  | cons m rest ih =>
      have hm : m s = none := hms m (by simp) s
      simp only [firstMatch, hm]
      exact ih fun m' hm' s' => hms m' (by simp [hm']) s'

/-- If every matcher rejects every string, the backtracking loop fails. -/
theorem prepLoop_all_none (ms : List Matcher) (hms : ∀ m ∈ ms, ∀ s, m s = none)
    (path : List Char) :
    ∀ (fuel : Nat) (pos : Int) (args pathParts : List String),
      prepLoop ms path fuel pos args pathParts = none := by
  intro fuel
  induction fuel with
  | zero => intro pos args pathParts; rfl
  | succ n ih =>
      intro pos args pathParts
      simp only [prepLoop, firstMatch_eq_none ms hms]
      split
      · rfl
      · exact ih _ _ _

/-- **C4.** Path resolution is longest-prefix-first backtracking.  First
conjunct: with a literal action registered at `/a/b`, requesting
`a/b/extra/segments` (request paths carry no leading slash) resolves to that
action with args `["extra", "segments"]` in left-to-right path order, the two
trailing segments having been moved (percent-decoded) into the accumulator as
the prefix was shortened.  Second conjunct: the full path is offered first to
the dispatch types in registration order, and an immediate `ExactMatch`
terminates the search with an empty argument list. -/
theorem prepareAction_longest_prefix :
    (∀ a : Action,
        prepareAction [literalMatch (registerPath [] "/a/b" a)] "a/b/extra/segments"
          = some (a, ["extra", "segments"]))
  ∧ (∀ (ms : List Matcher) (path : String) (a : Action),
        firstMatch ms path = some a → prepareAction ms path = some (a, [])) := by
  constructor
  · intro a; rfl
  · intro ms path a h
    show prepLoop ms path.data (path.length + 1 + 1) path.length []
        ("" :: splitSlash path.data) = some (a, [])
    exact prepLoop_match ms path.data (path.length + 1) path.length [] _ a
      (by rw [qmid_full]; exact h)

/-- A matcher recognising exactly the string `"xy"`. -/
def xyMatcher : Matcher := fun s => if s = "xy" then some showRoot else none

/-- Witness for `prepareAction_longest_prefix`: the full-path matcher hit at
`"xy"` resolves immediately with empty args. -/
theorem prepareAction_longest_prefix_witness :
    firstMatch [xyMatcher] "xy" = some showRoot
  ∧ prepareAction [xyMatcher] "xy" = some (showRoot, []) :=
  ⟨rfl, prepareAction_longest_prefix.2 [xyMatcher] "xy" showRoot rfl⟩

/-- **C5.** An empty request path is treated as the root path.  First
conjunct: with only a root action registered in the literal matcher,
requesting `""` or `"/"` resolves to the root action with an empty argument
list (the literal matcher normalises an empty candidate to `"/"`, and for the
request `"/"` the first candidate is `"/"` itself).  Second conjunct: when no
dispatch type matches any candidate, the prefix walk reaches length 0 and
resolution fails with no action set (`none`). -/
theorem prepareAction_root_fallback :
    (∀ a : Action,
        prepareAction [literalMatch (registerPath [] "/" a)] "" = some (a, [])
      ∧ prepareAction [literalMatch (registerPath [] "/" a)] "/" = some (a, []))
  ∧ (∀ (ms : List Matcher) (path : String),
        (∀ m ∈ ms, ∀ s, m s = none) → prepareAction ms path = none) := by
  constructor
  · intro a; exact ⟨rfl, rfl⟩
  · intro ms path h; exact prepLoop_all_none ms h path.data _ _ _ _

/-- Witness for `prepareAction_root_fallback`: with no dispatch types at all
(vacuously, every matcher always rejects), requesting `"nonexistent"` yields
no action. -/
theorem prepareAction_root_fallback_witness :
    (∀ m ∈ ([] : List Matcher), ∀ s, m s = none)
  ∧ prepareAction [] "nonexistent" = none :=
  ⟨by simp, prepareAction_root_fallback.2 [] "nonexistent" (by simp)⟩

/-! ## Snapshot-freezing lemmas (C8) -/

/-- Appending to the container of one key leaves every other key's binding
unchanged. -/
theorem alookup_containerAdd_ne (ch : List (String × List Action)) (k1 k2 : String)
    (a : Action) (h : k1 ≠ k2) :
    alookup (containerAdd ch k1 a) k2 = alookup ch k2 := by
  induction ch with
  | nil =>
      simp only [containerAdd, alookup]
      rw [if_neg h]
  | cons hd tl ih =>
      obtain ⟨k, v⟩ := hd
      simp only [containerAdd]
      by_cases hk : k = k1
      · rw [if_pos hk]
        have hk2 : ¬ (k = k2) := fun hh => h (hk.symm.trans hh)
        simp only [alookup]
        rw [if_neg hk2, if_neg hk2]
      · rw [if_neg hk]
        simp only [alookup]
        by_cases hk2 : k = k2
        · rw [if_pos hk2, if_pos hk2]
        · rw [if_neg hk2, if_neg hk2]
          exact ih

/-- Appending to the container of one key leaves every other key's container
unchanged. -/
theorem containerGet_add_ne (ch : List (String × List Action)) (k1 k2 : String)
    (a : Action) (h : k1 ≠ k2) :
    containerGet (containerAdd ch k1 a) k2 = containerGet ch k2 := by
  unfold containerGet
  rw [alookup_containerAdd_ne ch k1 k2 a h]

/-- A nonempty character list does not make the empty string. -/
theorem mk_ne_empty (l : List Char) (h : l ≠ []) : String.mk l ≠ "" := by
  intro he
  exact h (String.ext_iff.mp he)

/-- The namespace walk of `getContainers` only consults nonempty keys, so a
later addition to the root (`""`) container is invisible to it. -/
theorem getContainersLoop_frame (ch : List (String × List Action)) (a : Action)
    (ns : List Char) (hns : ns ≠ []) :
    ∀ (fuel : Nat) (pos : Int),
      getContainersLoop (containerAdd ch "" a) ns fuel pos
        = getContainersLoop ch ns fuel pos := by
  intro fuel
  induction fuel with
  | zero => intro pos; rfl
  | succ n ih =>
      intro pos
      simp only [getContainersLoop]
      split
      · rename_i hpos
        have hkey : ("" : String) ≠ String.mk (qmid ns 0 pos) := by
          have hq : qmid ns 0 pos ≠ [] := by
            show (ns.drop (0 : Int).toNat).take pos.toNat ≠ []
            obtain ⟨c, rest, hcr⟩ : ∃ c rest, ns = c :: rest := by
              cases ns with
              | nil => exact absurd rfl hns
              | cons c rest => exact ⟨c, rest, rfl⟩
            obtain ⟨k, hk⟩ : ∃ k, pos.toNat = k + 1 := ⟨pos.toNat - 1, by omega⟩
            simp [hcr, hk]
          exact fun he => hq (String.ext_iff.mp he.symm)
        rw [containerGet_add_ne ch "" _ a hkey, ih]
      · rfl

/-- **C8.** The root-actions list is a snapshot: first conjunct, after any
successful `setupActions` run the cached `rootActions` equals the root
namespace's container at snapshot time (taken before the controllers'
`setupFinished` notification, which does not touch dispatcher state); second
conjunct, adding an action to the root namespace's container afterwards does
not change the result of the namespace hierarchy walk `getContainers` for any
namespace — the walk reads only nonempty-namespace containers plus the frozen
`rootActions` snapshot. -/
theorem rootActions_snapshot_frozen :
    (∀ (showInternal : Bool) (accepts : Nat → Action → Bool) (s : DState)
        (cs : List Controller) (t : DState),
        setupActions showInternal accepts s cs = some t →
        t.rootActions = containerGet t.containerHash "")
  ∧ (∀ (s : DState) (a : Action) (nameSpace : String),
        getContainers { s with containerHash := containerAdd s.containerHash "" a } nameSpace
          = getContainers s nameSpace) := by
  constructor
  · intro showInternal accepts s cs t h
    unfold setupActions at h
    cases h1 : setupControllers showInternal accepts s cs with
    | none => rw [h1] at h; exact absurd h (by simp)
    | some s1 =>
        rw [h1] at h
        simp only [Option.some.injEq] at h
        subst h
        rfl
  · intro s a nameSpace
    unfold getContainers
    by_cases hd : nameSpace.data = []
    · have hlen : nameSpace.length = 0 := by simp [String.length, hd]
      simp only [hlen, hd]
      split
      · simp [getContainersLoop]
      · rfl
    · show (if nameSpace ≠ "/" then
          getContainersLoop (containerAdd s.containerHash "" a) nameSpace.data
            (nameSpace.length + 1) nameSpace.length
        else []) ++ s.rootActions
        = (if nameSpace ≠ "/" then
          getContainersLoop s.containerHash nameSpace.data
            (nameSpace.length + 1) nameSpace.length
        else []) ++ s.rootActions
      rw [getContainersLoop_frame s.containerHash a nameSpace.data hd]

/-- A root controller with a single root-level action. -/
def snapCtrl : Controller := ⟨"R", [⟨"", "index", []⟩]⟩

/-- Initial state for the snapshot witness. -/
def snapState0 : DState := ⟨[], [], [], [], [⟨0, false⟩]⟩

/-- The state after registering `snapCtrl` (accept-everything policy). -/
def snapFinal : DState :=
  ⟨[("/index", ⟨"", "index", []⟩)], [("", [⟨"", "index", []⟩])],
    [⟨"", "index", []⟩], [("R", snapCtrl)], [⟨0, true⟩]⟩

/-- Witness for `rootActions_snapshot_frozen`: a concrete setup run whose
result satisfies the snapshot equation. -/
theorem rootActions_snapshot_frozen_witness :
    setupActions false (fun _ _ => true) snapState0 [snapCtrl] = some snapFinal
  ∧ snapFinal.rootActions = containerGet snapFinal.containerHash "" :=
  ⟨by decide,
    rootActions_snapshot_frozen.1 false (fun _ _ => true) snapState0 [snapCtrl]
      snapFinal (by decide)⟩

/-! ## Lookup-order lemmas (C3) -/

/-- Collecting by prepending reverses the filtered container order. -/
theorem prependMatches_eq (nm : String) :
    ∀ (l : List Action) (acc : List Action),
      prependMatches l nm acc = (l.filter (fun x => x.name = nm)).reverse ++ acc := by
  intro l
  induction l with
  | nil => intro acc; simp [prependMatches]
  | cons a rest ih =>
      intro acc
      by_cases h : a.name = nm
      · simp [prependMatches, h, ih]
      · simp [prependMatches, h, ih]

/-- **C3, amended.** `getActions(name, namespace)` returns the matches in
*reverse-hierarchical* order — least-specific first: because the `Q_FOREACH`
loop prepends each match while `getContainers` walks deepest-first ending
with the root snapshot, the result is the reverse of the walk's filtered
order, so root-namespace matches come first and the deepest namespace's match
comes last; concretely, `getActions("show", "a/b")` yields root `show`, then
`a`'s, then `a/b`'s. -/
theorem getActions_least_specific_first :
    (∀ (s : DState) (nm nameSpace : String), nm ≠ "" →
        getActions s nm nameSpace
          = ((getContainers s (cleanNamespace nameSpace)).filter
              (fun x => x.name = nm)).reverse)
  ∧ getActions orderState "show" "a/b" = [showRoot, showA, showAB] := by
  constructor
  · intro s nm nameSpace h
    unfold getActions
    rw [if_neg h, prependMatches_eq]
    simp
  · decide

/-- Witness for `getActions_least_specific_first` at the concrete three-level
registry. -/
theorem getActions_least_specific_first_witness :
    ("show" : String) ≠ ""
  ∧ getActions orderState "show" "a/b"
      = ((getContainers orderState (cleanNamespace "a/b")).filter
          (fun x => x.name = "show")).reverse :=
  ⟨by decide,
    getActions_least_specific_first.1 orderState "show" "a/b" (by decide)⟩

/-! ## Setup idempotence lemmas (C9): step level -/

/-- `offerAll` preserves the dispatch-type identifiers. -/
theorem offerAll_ids (accepts : Nat → Action → Bool) (a : Action) :
    ∀ dts : List DT, ((offerAll accepts a dts).1).map (·.id) = dts.map (·.id) := by
  intro dts
  induction dts with
  | nil => rfl
  | cons d ds ih => simp [offerAll, ih]

/-- If every dispatch type rejects `a`, `offerAll` changes nothing and
reports no acceptance. -/
theorem offerAll_reject (accepts : Nat → Action → Bool) (a : Action) :
    ∀ dts : List DT, (∀ i ∈ dts.map (·.id), accepts i a = false) →
      offerAll accepts a dts = (dts, false) := by
  intro dts
  induction dts with
  | nil => intro _; rfl
  | cons d ds ih =>
      intro h
      obtain ⟨di, du⟩ := d
      have hd : accepts di a = false := h di (by simp)
      have hrest := ih fun i hi => h i (by simp [List.mem_map] at hi ⊢; right; exact hi)
      simp [offerAll, hd, hrest]

/-- If `offerAll` reports no acceptance, every dispatch type rejected `a`. -/
theorem offerAll_false_all (accepts : Nat → Action → Bool) (a : Action) :
    ∀ dts : List DT, (offerAll accepts a dts).2 = false →
      ∀ i ∈ dts.map (·.id), accepts i a = false := by
  intro dts
  induction dts with
  | nil => intro _ i hi; simp at hi
  | cons d ds ih =>
      intro h i hi
      simp only [offerAll, Bool.or_eq_false_iff] at h
      simp only [List.map_cons, List.mem_cons] at hi
      rcases hi with hi | hi
      · rw [hi]; exact h.1
      · exact ih h.2 i hi

/-- When the key is fresh and the action private, registration is
unconditional. -/
theorem regResult_private (accepts : Nat → Action → Bool) (s : DState) (a : Action)
    (h1 : alookup s.actionHash a.reverse = none)
    (h2 : a.attributes.contains "Private" = true) :
    regResult accepts s a = (s.dispatchers, true) := by
  unfold regResult
  rw [if_pos h1, if_neg (show ¬ ¬ a.attributes.contains "Private" = true from
    fun hc => hc h2)]

/-- When the key is fresh and the action non-private, registration is decided
by the dispatch types. -/
theorem regResult_offer (accepts : Nat → Action → Bool) (s : DState) (a : Action)
    (h1 : alookup s.actionHash a.reverse = none)
    (h2 : a.attributes.contains "Private" = false) :
    regResult accepts s a = offerAll accepts a s.dispatchers := by
  unfold regResult
  rw [if_pos h1, if_pos (show ¬ a.attributes.contains "Private" = true from
    fun hc => Bool.false_ne_true (by rw [h2] at hc; exact hc))]

/-- `regResult` preserves the dispatch-type identifiers. -/
theorem regResult_ids (accepts : Nat → Action → Bool) (s : DState) (a : Action) :
    ((regResult accepts s a).1).map (·.id) = s.dispatchers.map (·.id) := by
  unfold regResult
  split
  · split
    · exact offerAll_ids accepts a s.dispatchers
    · rfl
  · rfl

/-- A `setupAction` step preserves the dispatch-type identifiers. -/
theorem setupAction_ids (showInternal : Bool) (accepts : Nat → Action → Bool)
    (s : DState) (a : Action) (s2 : DState) (o : Outcome)
    (h : setupAction showInternal accepts s a = some (s2, o)) :
    s2.dispatchers.map (·.id) = s.dispatchers.map (·.id) := by
  unfold setupAction at h
  split at h
  · obtain ⟨h1, h2⟩ := Prod.mk.injEq .. ▸ Option.some.injEq .. ▸ h
    rw [← h1]
    exact regResult_ids accepts s a
  · split at h
    · obtain ⟨h1, h2⟩ := Prod.mk.injEq .. ▸ Option.some.injEq .. ▸ h
      rw [← h1]
      exact regResult_ids accepts s a
    · split at h
      · exact absurd h (by simp)
      · obtain ⟨h1, h2⟩ := Prod.mk.injEq .. ▸ Option.some.injEq .. ▸ h
        rw [← h1]
        exact regResult_ids accepts s a

/-- Inserting one key keeps every present key present. -/
theorem alookup_qhashInsert_mono {α : Type} (l : List (String × α)) (k key : String)
    (v : α) (h : ¬ alookup l k = none) : ¬ alookup (qhashInsert l key v) k = none := by
  induction l with
  | nil => simp [alookup] at h
  | cons hd tl ih =>
      obtain ⟨k1, v1⟩ := hd
      simp only [qhashInsert]
      by_cases hk1 : k1 = key
      · rw [if_pos hk1]
        simp only [alookup] at h ⊢
        by_cases hkey : key = k
        · simp [hkey]
        · rw [if_neg hkey]
          rw [if_neg (fun hh => hkey (hk1 ▸ hh)), ] at h
          exact h
      · rw [if_neg hk1]
        simp only [alookup] at h ⊢
        by_cases hk1k : k1 = k
        · simp [hk1k]
        · rw [if_neg hk1k] at h ⊢
          exact ih h

/-- Inserting a key makes it present. -/
theorem alookup_qhashInsert_self {α : Type} (l : List (String × α)) (key : String)
    (v : α) : alookup (qhashInsert l key v) key = some v := by
  induction l with
  | nil => simp [qhashInsert, alookup]
  | cons hd tl ih =>
      obtain ⟨k1, v1⟩ := hd
      simp only [qhashInsert]
      by_cases hk1 : k1 = key
      · rw [if_pos hk1]
        simp [alookup]
      · rw [if_neg hk1]
        simp only [alookup]
        rw [if_neg hk1]
        exact ih

/-- A `setupAction` step keeps every present registry key present. -/
theorem setupAction_mono (showInternal : Bool) (accepts : Nat → Action → Bool)
    (s : DState) (a : Action) (s2 : DState) (o : Outcome)
    (h : setupAction showInternal accepts s a = some (s2, o)) (k : String)
    (hk : ¬ alookup s.actionHash k = none) : ¬ alookup s2.actionHash k = none := by
  unfold setupAction at h
  split at h
  · obtain ⟨h1, h2⟩ := Prod.mk.injEq .. ▸ Option.some.injEq .. ▸ h
    rw [← h1]
    exact alookup_qhashInsert_mono s.actionHash k a.reverse a hk
  · split at h
    · obtain ⟨h1, h2⟩ := Prod.mk.injEq .. ▸ Option.some.injEq .. ▸ h
      rw [← h1]
      exact hk
    · split at h
      · exact absurd h (by simp)
      · obtain ⟨h1, h2⟩ := Prod.mk.injEq .. ▸ Option.some.injEq .. ▸ h
        rw [← h1]
        exact hk

/-- A step that registered its action leaves the action's reverse key
present. -/
theorem setupAction_registered_key (showInternal : Bool) (accepts : Nat → Action → Bool)
    (s : DState) (a : Action) (s2 : DState)
    (h : setupAction showInternal accepts s a = some (s2, Outcome.registered)) :
    ¬ alookup s2.actionHash a.reverse = none := by
  unfold setupAction at h
  split at h
  · obtain ⟨h1, h2⟩ := Prod.mk.injEq .. ▸ Option.some.injEq .. ▸ h
    rw [← h1]
    simp [alookup_qhashInsert_self]
  · split at h
    · exact absurd h (by simp)
    · split at h
      · exact absurd h (by simp)
      · exact absurd h (by simp)

/-- A step that did not register its action, on a fresh key, shows the action
is non-private and rejected by every dispatch type. -/
theorem setupAction_not_reg_rejects (showInternal : Bool)
    (accepts : Nat → Action → Bool) (s : DState) (a : Action) (s2 : DState)
    (o : Outcome) (h : setupAction showInternal accepts s a = some (s2, o))
    (ho : o ≠ Outcome.registered)
    (habs : alookup s.actionHash a.reverse = none) :
    a.attributes.contains "Private" = false
  ∧ ∀ i ∈ s.dispatchers.map (·.id), accepts i a = false := by
  have hreg : (regResult accepts s a).2 = false := by
    by_contra hb
    rw [Bool.not_eq_false] at hb
    unfold setupAction at h
    rw [if_pos hb] at h
    obtain ⟨h1, h2⟩ := Prod.mk.injEq .. ▸ Option.some.injEq .. ▸ h
    exact ho h2.symm
  have hpriv : a.attributes.contains "Private" = false := by
    by_contra hb
    rw [Bool.not_eq_false] at hb
    rw [regResult_private accepts s a habs hb] at hreg
    exact absurd hreg (by simp)
  refine ⟨hpriv, ?_⟩
  rw [regResult_offer accepts s a habs hpriv] at hreg
  exact offerAll_false_all accepts a s.dispatchers hreg

/-- A step on an action that is already registered, or non-private and
rejected by every dispatch type, leaves the state unchanged and registers
nothing (`showInternalActions` disabled). -/
theorem setupAction_id (accepts : Nat → Action → Bool) (s : DState) (a : Action)
    (h : ¬ alookup s.actionHash a.reverse = none ∨
        (a.attributes.contains "Private" = false ∧
          ∀ i ∈ s.dispatchers.map (·.id), accepts i a = false)) :
    ∃ o, setupAction false accepts s a = some (s, o) ∧ o ≠ Outcome.registered := by
  have hreg : regResult accepts s a = (s.dispatchers, false) := by
    rcases h with h | ⟨hp, hrej⟩
    · exact regResult_key_present accepts s a h
    · by_cases habs : alookup s.actionHash a.reverse = none
      · rw [regResult_offer accepts s a habs hp]
        exact offerAll_reject accepts a s.dispatchers hrej
      · exact regResult_key_present accepts s a habs
  rw [setupAction_not_registered false accepts s a hreg]
  by_cases hn : reservedNames.contains a.name = true
  · have hmem : a.name ∈ reservedNames := by simpa using hn
    exact ⟨Outcome.skipped, by simp [hmem], by simp⟩
  · have hmem : a.name ∉ reservedNames := by simpa using hn
    exact ⟨Outcome.unroutable, by simp [hmem], by simp⟩

/-! ## Setup idempotence lemmas (C9): loop level -/

/-- The per-controller action loop preserves dispatch-type identifiers. -/
theorem setupActionList_ids (showInternal : Bool) (accepts : Nat → Action → Bool) :
    ∀ (as : List Action) (s : DState) (u : Bool) (s2 : DState) (u2 : Bool),
      setupActionList showInternal accepts s u as = some (s2, u2) →
      s2.dispatchers.map (·.id) = s.dispatchers.map (·.id) := by
  intro as
  induction as with
  | nil =>
      intro s u s2 u2 h
      simp only [setupActionList, Option.some.injEq, Prod.mk.injEq] at h
      rw [← h.1]
  | cons a rest ih =>
      intro s u s2 u2 h
      simp only [setupActionList] at h
      cases hstep : setupAction showInternal accepts s a with
      | none => rw [hstep] at h; exact Option.noConfusion h
      | some p =>
          obtain ⟨s1, o⟩ := p
          rw [hstep] at h
          exact (ih s1 _ s2 u2 h).trans
            (setupAction_ids showInternal accepts s a s1 o hstep)

/-- The per-controller action loop keeps every present registry key
present. -/
theorem setupActionList_mono (showInternal : Bool) (accepts : Nat → Action → Bool) :
    ∀ (as : List Action) (s : DState) (u : Bool) (s2 : DState) (u2 : Bool),
      setupActionList showInternal accepts s u as = some (s2, u2) →
      ∀ k, ¬ alookup s.actionHash k = none → ¬ alookup s2.actionHash k = none := by
  intro as
  induction as with
  | nil =>
      intro s u s2 u2 h k hk
      simp only [setupActionList, Option.some.injEq, Prod.mk.injEq] at h
      rw [← h.1]
      exact hk
  | cons a rest ih =>
      intro s u s2 u2 h k hk
      simp only [setupActionList] at h
      cases hstep : setupAction showInternal accepts s a with
      | none => rw [hstep] at h; exact Option.noConfusion h
      | some p =>
          obtain ⟨s1, o⟩ := p
          rw [hstep] at h
          exact ih s1 _ s2 u2 h k
            (setupAction_mono showInternal accepts s a s1 o hstep k hk)

/-- If an action of the list is absent from the registry after the loop, it
is non-private and was rejected by every dispatch type. -/
theorem setupActionList_reject (showInternal : Bool) (accepts : Nat → Action → Bool) :
    ∀ (as : List Action) (s : DState) (u : Bool) (s2 : DState) (u2 : Bool),
      setupActionList showInternal accepts s u as = some (s2, u2) →
      ∀ a ∈ as, alookup s2.actionHash a.reverse = none →
      a.attributes.contains "Private" = false
    ∧ ∀ i ∈ s.dispatchers.map (·.id), accepts i a = false := by
  intro as
  induction as with
  | nil => intro s u s2 u2 h a ha; simp at ha
  | cons a0 rest ih =>
      intro s u s2 u2 h a ha habs
      simp only [setupActionList] at h
      cases hstep : setupAction showInternal accepts s a0 with
      | none => rw [hstep] at h; exact Option.noConfusion h
      | some p =>
          obtain ⟨s1, o⟩ := p
          rw [hstep] at h
          rcases List.mem_cons.mp ha with rfl | hmem
          · have habs1 : alookup s1.actionHash a.reverse = none := by
              by_contra hb
              exact setupActionList_mono showInternal accepts rest s1 _ s2 u2 h
                a.reverse hb habs
            have habs0 : alookup s.actionHash a.reverse = none := by
              by_contra hb
              exact setupAction_mono showInternal accepts s a s1 o hstep
                a.reverse hb habs1
            have ho : o ≠ Outcome.registered := by
              intro hoe
              subst hoe
              exact setupAction_registered_key showInternal accepts s a s1 hstep habs1
            exact setupAction_not_reg_rejects showInternal accepts s a s1 o hstep ho habs0
          · have hres := ih s1 _ s2 u2 h a hmem habs
            refine ⟨hres.1, ?_⟩
            intro i hi
            apply hres.2 i
            rw [setupAction_ids showInternal accepts s a0 s1 o hstep]
            exact hi

/-- `recordCtrl` touches only `constrollerHash`. -/
theorem recordCtrl_fields (s : DState) (c : Controller) (u : Bool) :
    (recordCtrl s c u).actionHash = s.actionHash
  ∧ (recordCtrl s c u).dispatchers = s.dispatchers := by
  unfold recordCtrl
  split
  · exact ⟨rfl, rfl⟩
  · exact ⟨rfl, rfl⟩

/-- The controller loop preserves dispatch-type identifiers. -/
theorem setupControllers_ids (showInternal : Bool) (accepts : Nat → Action → Bool) :
    ∀ (cs : List Controller) (s : DState) (s2 : DState),
      setupControllers showInternal accepts s cs = some s2 →
      s2.dispatchers.map (·.id) = s.dispatchers.map (·.id) := by
  intro cs
  induction cs with
  | nil =>
      intro s s2 h
      simp only [setupControllers, Option.some.injEq] at h
      rw [← h]
  | cons c rest ih =>
      intro s s2 h
      simp only [setupControllers] at h
      cases hstep : setupActionList showInternal accepts s false c.actions with
      | none => rw [hstep] at h; exact Option.noConfusion h
      | some p =>
          obtain ⟨s1, u⟩ := p
          rw [hstep] at h
          calc s2.dispatchers.map (·.id)
              = (recordCtrl s1 c u).dispatchers.map (·.id) := ih _ s2 h
            _ = s1.dispatchers.map (·.id) := by rw [(recordCtrl_fields s1 c u).2]
            _ = s.dispatchers.map (·.id) :=
                setupActionList_ids showInternal accepts c.actions s false s1 u hstep

/-- The controller loop keeps every present registry key present. -/
theorem setupControllers_mono (showInternal : Bool) (accepts : Nat → Action → Bool) :
    ∀ (cs : List Controller) (s : DState) (s2 : DState),
      setupControllers showInternal accepts s cs = some s2 →
      ∀ k, ¬ alookup s.actionHash k = none → ¬ alookup s2.actionHash k = none := by
  intro cs
  induction cs with
  | nil =>
      intro s s2 h k hk
      simp only [setupControllers, Option.some.injEq] at h
      rw [← h]
      exact hk
  | cons c rest ih =>
      intro s s2 h k hk
      simp only [setupControllers] at h
      cases hstep : setupActionList showInternal accepts s false c.actions with
      | none => rw [hstep] at h; exact Option.noConfusion h
      | some p =>
          obtain ⟨s1, u⟩ := p
          rw [hstep] at h
          apply ih _ s2 h k
          rw [(recordCtrl_fields s1 c u).1]
          exact setupActionList_mono showInternal accepts c.actions s false s1 u hstep k hk

/-- If an action of some controller is absent from the registry after the
whole controller loop, it is non-private and was rejected by every dispatch
type of the initial state. -/
theorem setupControllers_reject (showInternal : Bool) (accepts : Nat → Action → Bool) :
    ∀ (cs : List Controller) (s : DState) (s2 : DState),
      setupControllers showInternal accepts s cs = some s2 →
      ∀ c ∈ cs, ∀ a ∈ c.actions, alookup s2.actionHash a.reverse = none →
      a.attributes.contains "Private" = false
    ∧ ∀ i ∈ s.dispatchers.map (·.id), accepts i a = false := by
  intro cs
  induction cs with
  | nil => intro s s2 h c hc; simp at hc
  | cons c0 rest ih =>
      intro s s2 h c hc a ha habs
      simp only [setupControllers] at h
      cases hstep : setupActionList showInternal accepts s false c0.actions with
      | none => rw [hstep] at h; exact Option.noConfusion h
      | some p =>
          obtain ⟨s1, u⟩ := p
          rw [hstep] at h
          rcases List.mem_cons.mp hc with rfl | hmem
          · have habs1 : alookup s1.actionHash a.reverse = none := by
              by_contra hb
              refine setupControllers_mono showInternal accepts rest _ s2 h
                a.reverse ?_ habs
              rw [(recordCtrl_fields s1 c u).1]
              exact hb
            exact setupActionList_reject showInternal accepts c.actions s false s1 u
              hstep a ha habs1
          · have hres := ih _ s2 h c hmem a ha habs
            refine ⟨hres.1, ?_⟩
            intro i hi
            apply hres.2 i
            rw [(recordCtrl_fields s1 c0 u).2,
              setupActionList_ids showInternal accepts c0.actions s false s1 u hstep]
            exact hi

/-- On a state where every action is already registered or hopeless, the
action loop is the identity and registers nothing. -/
theorem setupActionList_id (accepts : Nat → Action → Bool) :
    ∀ (as : List Action) (s : DState),
      (∀ a ∈ as, ¬ alookup s.actionHash a.reverse = none ∨
          (a.attributes.contains "Private" = false ∧
            ∀ i ∈ s.dispatchers.map (·.id), accepts i a = false)) →
      setupActionList false accepts s false as = some (s, false) := by
  intro as
  induction as with
  | nil => intro s _; rfl
  | cons a rest ih =>
      intro s h
      obtain ⟨o, ho, hno⟩ := setupAction_id accepts s a (h a (by simp))
      simp only [setupActionList]
      rw [ho]
      show setupActionList false accepts s
        (if o = Outcome.registered then true else false) rest = some (s, false)
      rw [if_neg hno]
      exact ih s fun a2 ha2 => h a2 (by simp [ha2])

/-- On a state where every controller's action is already registered or
hopeless, the controller loop is the identity. -/
theorem setupControllers_id (accepts : Nat → Action → Bool) :
    ∀ (cs : List Controller) (s : DState),
      (∀ c ∈ cs, ∀ a ∈ c.actions,
          ¬ alookup s.actionHash a.reverse = none ∨
          (a.attributes.contains "Private" = false ∧
            ∀ i ∈ s.dispatchers.map (·.id), accepts i a = false)) →
      setupControllers false accepts s cs = some s := by
  intro cs
  induction cs with
  | nil => intro s _; rfl
  | cons c rest ih =>
      intro s h
      have hl := setupActionList_id accepts c.actions s (h c (by simp))
      simp only [setupControllers]
      rw [hl]
      show setupControllers false accepts (recordCtrl s c false) rest = some s
      have hrec : recordCtrl s c false = s := rfl
      rw [hrec]
      exact ih s fun c2 hc2 => h c2 (by simp [hc2])

/-- **C9.** With diagnostics disabled (the default), running `setupActions` a
second time with the same controller set is a no-op: every previously
registered action hits the duplicate check, every previously rejected action
is rejected again by the surviving dispatch types, so no registry entry is
duplicated, no container list grows, the root snapshot and controller
registry are unchanged, the dispatch-type filter is idempotent — the
resulting state equals the state after the first call (and the second call
cannot abort). -/
theorem setupActions_idempotent (accepts : Nat → Action → Bool) (s : DState)
    (cs : List Controller) (t : DState)
    (h : setupActions false accepts s cs = some t) :
    setupActions false accepts t cs = some t := by
  unfold setupActions at h
  cases h1 : setupControllers false accepts s cs with
  | none => rw [h1] at h; exact Option.noConfusion h
  | some s1 =>
      rw [h1] at h
      simp only [Option.some.injEq] at h
      have ht_hash : t.actionHash = s1.actionHash := by rw [← h]
      have ht_ch : t.containerHash = s1.containerHash := by rw [← h]
      have ht_root : t.rootActions = containerGet s1.containerHash "" := by rw [← h]
      have ht_disp : t.dispatchers = s1.dispatchers.filter (·.used) := by rw [← h]
      have hids := setupControllers_ids false accepts cs s s1 h1
      have hpre : ∀ c ∈ cs, ∀ a ∈ c.actions,
          ¬ alookup t.actionHash a.reverse = none ∨
          (a.attributes.contains "Private" = false ∧
            ∀ i ∈ t.dispatchers.map (·.id), accepts i a = false) := by
        intro c hc a ha
        by_cases habs : alookup t.actionHash a.reverse = none
        · right
          have habs1 : alookup s1.actionHash a.reverse = none := by
            rw [← ht_hash]; exact habs
          have hrej := setupControllers_reject false accepts cs s s1 h1 c hc a ha habs1
          refine ⟨hrej.1, ?_⟩
          intro i hi
          apply hrej.2 i
          rw [← hids]
          rw [ht_disp] at hi
          simp only [List.mem_map] at hi ⊢
          obtain ⟨d, hd, hdi⟩ := hi
          exact ⟨d, List.mem_of_mem_filter hd, hdi⟩
        · left; exact habs
      have h2 := setupControllers_id accepts cs t hpre
      unfold setupActions
      rw [h2]
      have e1 : containerGet t.containerHash "" = t.rootActions := by
        rw [ht_ch, ht_root]
      have e2 : t.dispatchers.filter (·.used) = t.dispatchers := by
        rw [ht_disp, List.filter_filter]
        simp
      show some { t with rootActions := containerGet t.containerHash "", dispatchers := t.dispatchers.filter (·.used) } = some t
      rw [e1, e2]

/-- Controller fixture for the idempotence witness: a routable root action, a
private action and an action no dispatch type claims. -/
def idemCtrl : Controller :=
  ⟨"M", [⟨"", "index", []⟩, ⟨"", "_DISPATCH", ["Private"]⟩, ⟨"x", "orphan", []⟩]⟩

/-- Acceptance policy of the idempotence witness: type 0 claims everything
but `orphan`, type 1 claims nothing. -/
def idemAccepts : Nat → Action → Bool := fun i a =>
  if i = 0 then (if a.name = "orphan" then false else true) else false

/-- Initial state of the idempotence witness, with two dispatch types. -/
def idemState0 : DState := ⟨[], [], [], [], [⟨0, false⟩, ⟨1, false⟩]⟩

/-- The state after the first `setupActions` run of the idempotence
witness. -/
def idemFinal : DState :=
  ⟨[("/index", ⟨"", "index", []⟩), ("/_DISPATCH", ⟨"", "_DISPATCH", ["Private"]⟩)],
    [("", [⟨"", "index", []⟩, ⟨"", "_DISPATCH", ["Private"]⟩])],
    [⟨"", "index", []⟩, ⟨"", "_DISPATCH", ["Private"]⟩],
    [("M", idemCtrl)], [⟨0, true⟩]⟩

/-- Witness for `setupActions_idempotent`: the concrete first run produces
`idemFinal` (the `orphan` action stays unregistered and type 1 is dropped),
and the second run reproduces it. -/
theorem setupActions_idempotent_witness :
    setupActions false idemAccepts idemState0 [idemCtrl] = some idemFinal
  ∧ setupActions false idemAccepts idemFinal [idemCtrl] = some idemFinal :=
  ⟨by decide,
    setupActions_idempotent idemAccepts idemState0 [idemCtrl] idemFinal (by decide)⟩

end Cutelyst
